import Mathlib

/-!
Verification of the Conversation I/O Layer of `fastchat/serve/cli.py`
(repository `FastChat-FileInputIO`).

Python strings are modelled as `List Char`.  The string operations the
source uses — `str.strip()`, `str.split(" ")`, `str.splitlines()`,
`" ".join(...)`, `str.startswith("...")` — are embedded below, each one
following the documented Python semantics of the exact call that appears
in the source.
-/

/-- Whitespace characters removed by Python `str.strip()` with no
argument, restricted to the ASCII range that can occur in the texts
concerned: space, tab, newline, carriage return, vertical tab (0x0b)
and form feed (0x0c). -/
def pyIsSpace (c : Char) : Bool :=
  c = ' ' || c = '\t' || c = '\n' || c = '\r' || c = Char.ofNat 11 || c = Char.ofNat 12

/-- Python `s.strip()`: remove leading and trailing whitespace. -/
def pyStrip (s : List Char) : List Char :=
  ((s.dropWhile pyIsSpace).reverse.dropWhile pyIsSpace).reverse

/-- Prepend a character to the first piece of a split result
(`[[c]]` when there is no piece yet). -/
def consHead (c : Char) : List (List Char) → List (List Char)
  | [] => [[c]]
  | w :: ws => (c :: w) :: ws

/-- Python `s.split(" ")` with the explicit one-character separator:
splits on every single space, keeping empty pieces, and yields `[""]`
on the empty string.  It never returns an empty list. -/
def pySplitSpace : List Char → List (List Char)
  | [] => [[]]
  | c :: r => if c = ' ' then [] :: pySplitSpace r else consHead c (pySplitSpace r)

/-- Python `" ".join(ws)`: interleave the pieces with single spaces. -/
def joinSpace : List (List Char) → List Char
  | [] => []
  | [w] => w
  | w :: ws => w ++ ' ' :: joinSpace ws

/-- Python `s.splitlines()`: split at line boundaries (`\n`, `\r`,
`\r\n`), not keeping the terminators; a trailing terminator does not
produce a final empty line, and the empty string yields no lines. -/
def pySplitlines : List Char → List (List Char)
  | [] => []
  | c :: r =>
    if c = '\n' then [] :: pySplitlines r
    else if c = '\r' then
      match r with
      | [] => [[]]
      | c2 :: r2 =>
        if c2 = '\n' then [] :: pySplitlines r2 else [] :: pySplitlines (c2 :: r2)
    else consHead c (pySplitlines r)

theorem pySplitSpace_ne_nil (s : List Char) : pySplitSpace s ≠ [] := by
  cases s with
  | nil => simp [pySplitSpace]
  | cons c r =>
    simp only [pySplitSpace]
    split
    · simp
    · cases h : pySplitSpace r <;> simp [consHead]

theorem joinSpace_cons_of_ne_nil (w : List Char) {ws : List (List Char)} (h : ws ≠ []) :
    joinSpace (w :: ws) = w ++ ' ' :: joinSpace ws := by
  cases ws with
  | nil => exact absurd rfl h
  | cons x xs => rfl

theorem joinSpace_consHead (c : Char) (l : List (List Char)) :
    joinSpace (consHead c l) = c :: joinSpace l := by
  cases l with
  | nil => rfl
  | cons w ws =>
    cases ws with
    | nil => rfl
    | cons x xs => rfl

/-- Splitting on single spaces and rejoining with single spaces is the
identity: `" ".join(s.split(" ")) == s` for every Python string `s`. -/
theorem joinSpace_pySplitSpace (s : List Char) : joinSpace (pySplitSpace s) = s := by
  induction s with
  | nil => rfl
  | cons c r ih =>
    simp only [pySplitSpace]
    split
    · rename_i hc
      rw [joinSpace_cons_of_ne_nil _ (pySplitSpace_ne_nil r), ih, hc]
      rfl
    · rw [joinSpace_consHead, ih]

theorem joinSpace_append_of_ne_nil {l m : List (List Char)} (hl : l ≠ []) (hm : m ≠ []) :
    joinSpace (l ++ m) = joinSpace l ++ ' ' :: joinSpace m := by
  induction l with
  | nil => exact absurd rfl hl
  | cons a l' ih =>
    cases l' with
    | nil =>
      simp only [List.singleton_append]
      rw [joinSpace_cons_of_ne_nil a hm]
      rfl
    | cons b l'' =>
      rw [List.cons_append,
        joinSpace_cons_of_ne_nil a (by simp : (b :: l'') ++ m ≠ []),
        ih (by simp), joinSpace_cons_of_ne_nil a (by simp : b :: l'' ≠ [])]
      simp

/-!
## The Snapshot Differ: `SimpleChat.stream_output`

Source (`src/fastchat/serve/cli.py`, lines 74-84):

    def stream_output(self, output_stream):
        pre = 0
        for outputs in output_stream:
            output_text = outputs["text"]
            output_text = output_text.strip().split(" ")
            now = len(output_text) - 1
            if now > pre:
                print(" ".join(output_text[pre:now]), end=" ", flush=True)
                pre = now
        print(" ".join(output_text[pre:]), flush=True)
        return " ".join(output_text)

`FileInputChat.stream_output` (lines 171-181) is character-for-character
identical.  The stream is modelled as the list of the `outputs["text"]`
values; printing is modelled by recording each printed chunk.
-/

/-- `output_text.strip().split(" ")` — the token list of one snapshot. -/
def tokenize (t : List Char) : List (List Char) :=
  pySplitSpace (pyStrip t)

/-- The mutable state of the `stream_output` loop: `pre` is the count of
already-printed tokens, `cur` is the current value of the loop-local
variable `output_text` (`none` while it is still unbound, i.e. before
the first iteration), `chunks` records the strings written by the
in-loop `print` calls, in order. -/
structure LoopState where
  pre : Nat
  cur : Option (List (List Char))
  chunks : List (List Char)
deriving DecidableEq, Repr

/-- One iteration of the `for outputs in output_stream` loop. -/
def streamStep (st : LoopState) (t : List Char) : LoopState :=
  let toks := tokenize t
  let now := toks.length - 1
  if st.pre < now then
    { pre := now, cur := some toks,
      chunks := st.chunks ++ [joinSpace ((toks.take now).drop st.pre)] }
  else
    { pre := st.pre, cur := some toks, chunks := st.chunks }

/-- The loop state after consuming a whole snapshot stream, starting
from `pre = 0`, `output_text` unbound and nothing printed. -/
def loopState (stream : List (List Char)) : LoopState :=
  stream.foldl streamStep { pre := 0, cur := none, chunks := [] }

/-- Everything `stream_output` writes and returns: the chunks printed
inside the loop, the closing chunk printed after the loop, and the
returned string. -/
structure StreamResult where
  chunks : List (List Char)
  closing : List Char
  ret : List Char
deriving DecidableEq, Repr

/-- `SimpleChat.stream_output`.  After the loop the code prints
`" ".join(output_text[pre:])` and returns `" ".join(output_text)`;
if the stream was empty, `output_text` was never assigned and the
final `print` raises `UnboundLocalError` — modelled as `none`. -/
def SimpleChat.stream_output (stream : List (List Char)) : Option StreamResult :=
  match (loopState stream).cur with
  | none => none
  | some toks =>
      some { chunks := (loopState stream).chunks,
             closing := joinSpace (toks.drop (loopState stream).pre),
             ret := joinSpace toks }

/-- `FileInputChat.stream_output` (lines 171-181) has a body that is
character-for-character identical to `SimpleChat.stream_output`. -/
def FileInputChat.stream_output : List (List Char) → Option StreamResult :=
  SimpleChat.stream_output

/-- The prefix-extension invariant of a snapshot stream relative to a
previous snapshot `t0` (spec §3): each snapshot token-extends its
predecessor. -/
def tokChain : List Char → List (List Char) → Bool
  | _, [] => true
  | t0, t :: rest => (tokenize t0).isPrefixOf (tokenize t) && tokChain t rest

/-- The prefix-extension invariant of a whole snapshot stream:
consecutive snapshots are related by token-list extension. -/
def snapshotChain : List (List Char) → Bool
  | [] => true
  | t :: rest => tokChain t rest

/-- The loop invariant of `stream_output`, relative to the token list
`toks` of the most recently consumed snapshot: `output_text` holds
`toks`, strictly fewer than all of its tokens have been printed, and the
chunks printed so far are exactly the space-joinings of a partition of
the first `pre` tokens into non-empty consecutive ranges. -/
structure LoopInvariant (st : LoopState) (toks : List (List Char)) : Prop where
  cur_eq : st.cur = some toks
  pre_lt : st.pre < toks.length
  ranges : ∃ rs : List (List (List Char)),
    st.chunks = rs.map joinSpace ∧ rs.flatten = toks.take st.pre ∧ ∀ r ∈ rs, r ≠ []

theorem tokenize_ne_nil (t : List Char) : tokenize t ≠ [] :=
  pySplitSpace_ne_nil (pyStrip t)

theorem tokenize_length_pos (t : List Char) : 0 < (tokenize t).length :=
  List.length_pos.mpr (tokenize_ne_nil t)

/-- If `u` is a list-prefix of `v` then their first `n ≤ u.length`
elements agree. -/
theorem take_eq_of_take_of_le {u v : List (List Char)} (h : u <+: v) {n : Nat}
    (hn : n ≤ u.length) : v.take n = u.take n := by
  obtain ⟨s, rfl⟩ := h
  exact List.take_append_of_le_length hn

/-- `streamStep` preserves the loop invariant along a prefix-extension
step of the snapshot stream. -/
theorem streamStep_invariant {st : LoopState} {u : List (List Char)} {t : List Char}
    (hinv : LoopInvariant st u) (hpre : u <+: tokenize t) :
    LoopInvariant (streamStep st t) (tokenize t) := by
  obtain ⟨hcur, hlt, rs, hchunks, hjoin, hne⟩ := hinv
  have htake : (tokenize t).take st.pre = u.take st.pre :=
    take_eq_of_take_of_le hpre (Nat.le_of_lt hlt)
  by_cases hbr : st.pre < (tokenize t).length - 1
  · refine ⟨?_, ?_, ?_⟩
    · simp [streamStep, hbr]
    · simp only [streamStep, if_pos hbr]
      exact Nat.sub_lt (tokenize_length_pos t) Nat.one_pos
    · refine ⟨rs ++ [((tokenize t).take ((tokenize t).length - 1)).drop st.pre], ?_, ?_, ?_⟩
      · simp [streamStep, hbr, hchunks]
      · simp only [streamStep, if_pos hbr, List.flatten_append, List.flatten_cons, List.flatten_nil,
          List.append_nil, hjoin]
        have h2 : List.take st.pre (tokenize t)
            = List.take st.pre (List.take ((tokenize t).length - 1) (tokenize t)) := by
          rw [List.take_take]
          congr 1
          omega
        rw [← htake, h2, List.take_append_drop]
      · intro r hr
        rcases List.mem_append.mp hr with h1 | h2
        · exact hne r h1
        · rcases List.mem_singleton.mp h2 with rfl
          have hlen : (((tokenize t).take ((tokenize t).length - 1)).drop st.pre).length
              = (tokenize t).length - 1 - st.pre := by
            simp [List.length_drop, List.length_take, Nat.min_def, Nat.sub_le]
          intro hnil
          rw [hnil] at hlen
          simp at hlen
          omega
  · refine ⟨?_, ?_, ?_⟩
    · simp [streamStep, hbr]
    · simp only [streamStep, if_neg hbr]
      exact Nat.lt_of_lt_of_le hlt hpre.length_le
    · refine ⟨rs, ?_, ?_, hne⟩
      · simp [streamStep, hbr, hchunks]
      · simp only [streamStep, if_neg hbr, hjoin, htake]

/-- Folding `streamStep` over a stream that token-extends `t0` keeps the
loop invariant, ending at the token list of the last snapshot. -/
theorem foldl_streamStep_invariant (rest : List (List Char)) :
    ∀ (st : LoopState) (t0 : List Char), LoopInvariant st (tokenize t0) →
      tokChain t0 rest = true →
      LoopInvariant (rest.foldl streamStep st) (tokenize (rest.getLastD t0)) := by
  induction rest with
  | nil => intro st t0 hinv _; exact hinv
  | cons t rest ih =>
    intro st t0 hinv hchain
    simp only [tokChain, Bool.and_eq_true] at hchain
    have hpre : tokenize t0 <+: tokenize t := by
      have := hchain.1
      simpa using this
    simp only [List.foldl_cons, List.getLastD_cons]
    exact ih (streamStep st t) t (streamStep_invariant hinv hpre) hchain.2

/-- The first loop iteration establishes the invariant. -/
theorem streamStep_init (t : List Char) :
    LoopInvariant (streamStep { pre := 0, cur := none, chunks := [] } t) (tokenize t) := by
  by_cases hbr : 0 < (tokenize t).length - 1
  · refine ⟨?_, ?_, ?_⟩
    · simp [streamStep, hbr]
    · simp only [streamStep, if_pos hbr]
      exact Nat.sub_lt (tokenize_length_pos t) Nat.one_pos
    · refine ⟨[(tokenize t).take ((tokenize t).length - 1)], ?_, ?_, ?_⟩
      · simp [streamStep, hbr]
      · simp [streamStep, hbr]
      · intro r hr
        rcases List.mem_singleton.mp hr with rfl
        intro hnil
        have := congrArg List.length hnil
        simp [List.length_take, Nat.min_def] at this
        omega
  · refine ⟨?_, ?_, [], ?_, ?_, by simp⟩
    · simp [streamStep, hbr]
    · simp only [streamStep, if_neg hbr]
      exact tokenize_length_pos t
    · simp [streamStep, hbr]
    · simp [streamStep, hbr]

/-- The loop invariant holds after consuming any non-empty stream that
satisfies the prefix-extension invariant. -/
theorem loopState_invariant {stream : List (List Char)} (hne : stream ≠ [])
    (hchain : snapshotChain stream = true) :
    LoopInvariant (loopState stream) (tokenize (stream.getLastD [])) := by
  cases stream with
  | nil => exact absurd rfl hne
  | cons s0 rest =>
    simp only [loopState, List.foldl_cons, List.getLastD_cons]
    exact foldl_streamStep_invariant rest _ s0 (streamStep_init s0) hchain

/-- Without any invariant hypothesis: after a non-empty stream the
loop-local `output_text` holds the token list of the last snapshot. -/
theorem foldl_streamStep_cur (rest : List (List Char)) :
    ∀ (st : LoopState) (t0 : List Char), st.cur = some (tokenize t0) →
      (rest.foldl streamStep st).cur = some (tokenize (rest.getLastD t0)) := by
  induction rest with
  | nil => intro st t0 h; exact h
  | cons t rest ih =>
    intro st t0 _
    simp only [List.foldl_cons, List.getLastD_cons]
    refine ih (streamStep st t) t ?_
    simp only [streamStep]
    split <;> rfl

theorem loopState_cur {stream : List (List Char)} (hne : stream ≠ []) :
    (loopState stream).cur = some (tokenize (stream.getLastD [])) := by
  cases stream with
  | nil => exact absurd rfl hne
  | cons s0 rest =>
    simp only [loopState, List.foldl_cons, List.getLastD_cons]
    refine foldl_streamStep_cur rest _ s0 ?_
    simp only [streamStep]
    split <;> rfl

/-- Joining a partition of `toks` chunk-wise and then with single spaces
equals joining `toks` directly, provided every piece is non-empty. -/
theorem joinSpace_map_flatten (rs : List (List (List Char))) (tail : List (List Char))
    (hrs : ∀ r ∈ rs, r ≠ []) (htail : tail ≠ []) :
    joinSpace (rs.map joinSpace ++ [joinSpace tail]) = joinSpace (rs.flatten ++ tail) := by
  induction rs with
  | nil => rfl
  | cons r rs ih =>
    have hr : r ≠ [] := hrs r (by simp)
    have hrest : ∀ x ∈ rs, x ≠ [] := fun x hx => hrs x (by simp [hx])
    rw [List.map_cons, List.cons_append,
      joinSpace_cons_of_ne_nil _ (by simp : rs.map joinSpace ++ [joinSpace tail] ≠ []),
      ih hrest, List.flatten_cons, List.append_assoc,
      joinSpace_append_of_ne_nil hr (by simp [htail] : rs.flatten ++ tail ≠ [])]

/-- C1: for every finite non-empty snapshot stream satisfying the
prefix-extension invariant, concatenating all WordChunks emitted during
the loop (in order, space-joined) together with the closing chunk
printed at stream end equals the last snapshot's full text modulo the
joining whitespace (i.e. equals its token list space-joined), and the
returned string equals that same text. -/
theorem C1_diff_completeness (stream : List (List Char)) (hne : stream ≠ [])
    (hchain : snapshotChain stream = true) :
    ∃ r : StreamResult,
      SimpleChat.stream_output stream = some r ∧
      FileInputChat.stream_output stream = some r ∧
      joinSpace (r.chunks ++ [r.closing]) = r.ret ∧
      r.ret = joinSpace (tokenize (stream.getLastD [])) := by
  obtain ⟨hcur, hlt, rs, hchunks, hjoin, hrne⟩ := loopState_invariant hne hchain
  refine ⟨{ chunks := (loopState stream).chunks,
            closing := joinSpace ((tokenize (stream.getLastD [])).drop (loopState stream).pre),
            ret := joinSpace (tokenize (stream.getLastD [])) }, ?_, ?_, ?_, rfl⟩
  · simp only [SimpleChat.stream_output, hcur]
  · simp only [FileInputChat.stream_output, SimpleChat.stream_output, hcur]
  · have hdrop : (tokenize (stream.getLastD [])).drop (loopState stream).pre ≠ [] := by
      rw [Ne, List.drop_eq_nil_iff]
      omega
    simp only
    rw [hchunks, joinSpace_map_flatten rs _ hrne hdrop, hjoin, List.take_append_drop]

theorem C1_diff_completeness_witness :
    ((["Hello".toList, "Hello there".toList] : List (List Char)) ≠ [] ∧
      snapshotChain ["Hello".toList, "Hello there".toList] = true) ∧
    (∃ r : StreamResult,
      SimpleChat.stream_output ["Hello".toList, "Hello there".toList] = some r ∧
      FileInputChat.stream_output ["Hello".toList, "Hello there".toList] = some r ∧
      joinSpace (r.chunks ++ [r.closing]) = r.ret ∧
      r.ret = joinSpace (tokenize ((["Hello".toList, "Hello there".toList]).getLastD []))) :=
  ⟨⟨by decide, by decide⟩, C1_diff_completeness _ (by decide) (by decide)⟩

/-- C4: on a stream with zero snapshots, the final
`print(" ".join(output_text[pre:]))` reads the loop variable
`output_text` that was never assigned, so the call raises
`UnboundLocalError` instead of producing empty output — for both
`SimpleChatIO` and `FileInputChatIO`. -/
theorem C4_empty_stream_raises :
    SimpleChat.stream_output [] = none ∧ FileInputChat.stream_output [] = none :=
  ⟨rfl, rfl⟩

/-- C8: on the concrete snapshot stream "Hello", "Hello there",
"Hello there friend", the code emits no chunk after snapshot 1, the
chunk "Hello" after snapshot 2, the chunk "there" after snapshot 3, the
closing chunk "friend" at stream end, and returns
"Hello there friend". -/
theorem C8_concrete_example :
    (loopState [("Hello".toList)]).chunks = [] ∧
    (loopState [("Hello".toList), ("Hello there".toList)]).chunks = [("Hello".toList)] ∧
    (loopState [("Hello".toList), ("Hello there".toList),
      ("Hello there friend".toList)]).chunks = [("Hello".toList), ("there".toList)] ∧
    SimpleChat.stream_output [("Hello".toList), ("Hello there".toList),
        ("Hello there friend".toList)] =
      some { chunks := [("Hello".toList), ("there".toList)],
             closing := ("friend".toList),
             ret := ("Hello there friend".toList) } := by
  decide

/-- C10: for every non-empty snapshot stream the returned string equals
exactly the last snapshot's text with leading and trailing whitespace
stripped — interior whitespace is preserved verbatim, because splitting
the stripped text on single spaces and rejoining with single spaces is
the identity. -/
theorem C10_return_is_stripped_last (stream : List (List Char)) (hne : stream ≠ []) :
    ∃ r : StreamResult,
      SimpleChat.stream_output stream = some r ∧
      FileInputChat.stream_output stream = some r ∧
      r.ret = pyStrip (stream.getLastD []) ∧
      ∀ s : List Char, joinSpace (pySplitSpace s) = s := by
  have hcur := loopState_cur hne
  refine ⟨{ chunks := (loopState stream).chunks,
            closing := joinSpace ((tokenize (stream.getLastD [])).drop (loopState stream).pre),
            ret := joinSpace (tokenize (stream.getLastD [])) }, ?_, ?_, ?_,
          joinSpace_pySplitSpace⟩
  · simp only [SimpleChat.stream_output, hcur]
  · simp only [FileInputChat.stream_output, SimpleChat.stream_output, hcur]
  · simp only [tokenize]
    exact joinSpace_pySplitSpace (pyStrip (stream.getLastD []))

theorem C10_return_is_stripped_last_witness :
    (([("  deep \n".toList)] : List (List Char)) ≠ []) ∧
    (∃ r : StreamResult,
      SimpleChat.stream_output [("  deep \n".toList)] = some r ∧
      FileInputChat.stream_output [("  deep \n".toList)] = some r ∧
      r.ret = pyStrip (([("  deep \n".toList)] : List (List Char)).getLastD []) ∧
      ∀ s : List Char, joinSpace (pySplitSpace s) = s) :=
  ⟨by decide, C10_return_is_stripped_last _ (by decide)⟩

theorem tokChain_take (t0 : List Char) (l : List (List Char)) (n : Nat)
    (h : tokChain t0 l = true) : tokChain t0 (l.take n) = true := by
  induction l generalizing t0 n with
  | nil => simp [tokChain]
  | cons t rest ih =>
    cases n with
    | zero => rfl
    | succ n =>
      simp only [List.take_succ_cons, tokChain, Bool.and_eq_true] at h ⊢
      exact ⟨h.1, ih t n h.2⟩

theorem snapshotChain_take (l : List (List Char)) (n : Nat)
    (h : snapshotChain l = true) : snapshotChain (l.take n) = true := by
  cases l with
  | nil => simp [snapshotChain]
  | cons t rest =>
    cases n with
    | zero => rfl
    | succ n => exact tokChain_take t rest n h

theorem tokChain_getD (t0 : List Char) (l : List (List Char)) (k : Nat)
    (h : tokChain t0 l = true) (hk : k < l.length) :
    tokenize t0 <+: tokenize (l.getD k []) := by
  induction l generalizing t0 k with
  | nil => simp at hk
  | cons t rest ih =>
    simp only [tokChain, Bool.and_eq_true] at h
    have h1 : tokenize t0 <+: tokenize t := by
      have := h.1
      simpa using this
    cases k with
    | zero => simpa using h1
    | succ k =>
      have h2 := ih t k h.2 (by simpa using hk)
      simp only [List.getD_cons_succ]
      exact h1.trans h2

/-- Across a stream satisfying the prefix-extension invariant, the token
list of an earlier snapshot is a list-prefix of that of any later one. -/
theorem snapshot_tok_mono (stream : List (List Char)) (hchain : snapshotChain stream = true)
    (i j : Nat) (hij : i ≤ j) (hj : j < stream.length) :
    tokenize (stream.getD i []) <+: tokenize (stream.getD j []) := by
  induction stream generalizing i j with
  | nil => simp at hj
  | cons t rest ih =>
    cases i with
    | zero =>
      cases j with
      | zero => exact List.prefix_refl _
      | succ j =>
        simpa using tokChain_getD t rest j hchain (by simpa using hj)
    | succ i =>
      cases j with
      | zero => omega
      | succ j =>
        have hrest : snapshotChain rest = true := by
          cases rest with
          | nil => rfl
          | cons t2 rest2 =>
            simp only [snapshotChain, tokChain, Bool.and_eq_true] at hchain
            exact hchain.2
        simpa using ih hrest i j (by omega) (by simpa using hj)

theorem getD_default_irrel {l : List (List Char)} {n : Nat} (h : n < l.length)
    (d1 d2 : List Char) : l.getD n d1 = l.getD n d2 := by
  induction l generalizing n with
  | nil => simp at h
  | cons x xs ih =>
    cases n with
    | zero => rfl
    | succ n => exact ih (by simpa using h) 

theorem getLastD_take (l : List (List Char)) (i : Nat) (hi : i < l.length)
    (d : List Char) : (l.take (i + 1)).getLastD d = l.getD i d := by
  induction l generalizing i d with
  | nil => simp at hi
  | cons t rest ih =>
    cases i with
    | zero => simp
    | succ i =>
      have hi' : i < rest.length := by simpa using hi
      simp only [List.take_succ_cons, List.getLastD_cons, List.getD_cons_succ]
      rw [ih i hi' t]
      exact getD_default_irrel hi' t d

/-- C5: under the prefix-extension invariant, the tokens printed while
the loop is still running, after consuming snapshots up to index `i`,
are exactly the first `pre` tokens of snapshot `i` with
`pre` at most `N_i - 1` (no token is ever the still-growing last word),
and those tokens recur unchanged — still strictly before the last
word — in every later snapshot `j`. -/
theorem C5_no_premature_emission (stream : List (List Char))
    (hchain : snapshotChain stream = true) (i j : Nat) (hij : i ≤ j)
    (hj : j < stream.length) :
    (∃ rs : List (List (List Char)),
        (loopState (stream.take (i + 1))).chunks = rs.map joinSpace ∧
        rs.flatten
          = (tokenize (stream.getD i [])).take (loopState (stream.take (i + 1))).pre) ∧
    (loopState (stream.take (i + 1))).pre < (tokenize (stream.getD i [])).length ∧
    (tokenize (stream.getD j [])).take (loopState (stream.take (i + 1))).pre
        = (tokenize (stream.getD i [])).take (loopState (stream.take (i + 1))).pre ∧
    (loopState (stream.take (i + 1))).pre < (tokenize (stream.getD j [])).length := by
  have hi : i < stream.length := Nat.lt_of_le_of_lt hij hj
  have hne : stream ≠ [] := by
    intro h
    rw [h] at hj
    simp at hj
  have htne : stream.take (i + 1) ≠ [] := by
    rw [Ne, List.take_eq_nil_iff]
    simp [hne]
  obtain ⟨hcur, hlt, rs, hchunks, hjoin, hrne⟩ :=
    loopState_invariant htne (snapshotChain_take stream (i + 1) hchain)
  rw [getLastD_take stream i hi []] at hlt hjoin
  have hpre : tokenize (stream.getD i []) <+: tokenize (stream.getD j []) :=
    snapshot_tok_mono stream hchain i j hij hj
  refine ⟨⟨rs, hchunks, hjoin⟩, hlt, ?_, ?_⟩
  · exact take_eq_of_take_of_le hpre (Nat.le_of_lt hlt)
  · exact Nat.lt_of_lt_of_le hlt hpre.length_le

theorem C5_no_premature_emission_witness :
    (snapshotChain [("Hello".toList), ("Hello there".toList),
        ("Hello there friend".toList)] = true ∧ (0 : Nat) ≤ 1 ∧
      1 < ([("Hello".toList), ("Hello there".toList),
        ("Hello there friend".toList)] : List (List Char)).length) ∧
    ((∃ rs : List (List (List Char)),
        (loopState (([("Hello".toList), ("Hello there".toList),
          ("Hello there friend".toList)] : List (List Char)).take (0 + 1))).chunks
            = rs.map joinSpace ∧
        rs.flatten
          = (tokenize (([("Hello".toList), ("Hello there".toList),
              ("Hello there friend".toList)] : List (List Char)).getD 0 [])).take
              (loopState (([("Hello".toList), ("Hello there".toList),
                ("Hello there friend".toList)] : List (List Char)).take (0 + 1))).pre) ∧
    (loopState (([("Hello".toList), ("Hello there".toList),
        ("Hello there friend".toList)] : List (List Char)).take (0 + 1))).pre
      < (tokenize (([("Hello".toList), ("Hello there".toList),
          ("Hello there friend".toList)] : List (List Char)).getD 0 [])).length ∧
    (tokenize (([("Hello".toList), ("Hello there".toList),
        ("Hello there friend".toList)] : List (List Char)).getD 1 [])).take
        (loopState (([("Hello".toList), ("Hello there".toList),
          ("Hello there friend".toList)] : List (List Char)).take (0 + 1))).pre
      = (tokenize (([("Hello".toList), ("Hello there".toList),
          ("Hello there friend".toList)] : List (List Char)).getD 0 [])).take
          (loopState (([("Hello".toList), ("Hello there".toList),
            ("Hello there friend".toList)] : List (List Char)).take (0 + 1))).pre ∧
    (loopState (([("Hello".toList), ("Hello there".toList),
        ("Hello there friend".toList)] : List (List Char)).take (0 + 1))).pre
      < (tokenize (([("Hello".toList), ("Hello there".toList),
          ("Hello there friend".toList)] : List (List Char)).getD 1 [])).length) :=
  ⟨⟨by decide, by decide, by decide⟩,
    C5_no_premature_emission _ (by decide) 0 1 (by decide) (by decide)⟩

/-!
## The Markdown Live Renderer: `RichChat.stream_output`

Source (`src/fastchat/serve/cli.py`, lines 119-155).  Per snapshot the
loop re-builds the markdown source from scratch from the raw text:

    lines = []
    for line in text.splitlines():
        lines.append(line)
        if line.startswith("```"):
            lines.append("\n")
        else:
            lines.append("  \n")
    markdown = Markdown("".join(lines))
    live.update(markdown)

The code comment in the source itself notes that this "would introduce
trailing spaces (only) in code block".
-/

/-- The backtick character (code point 0x60). -/
def backtick : Char := Char.ofNat 96

/-- The fenced-code-block marker: three backticks. -/
def fenceMarker : List Char := [backtick, backtick, backtick]

/-- Python line.startswith of the triple-backtick marker. -/
def startsWithFence (line : List Char) : Bool :=
  fenceMarker.isPrefixOf line

/-- One line of the per-line transformation: the line followed by what
the loop appends after it (a bare newline for fence-marker lines, two
spaces and a newline for every other line). -/
def richLineSuffix (line : List Char) : List Char :=
  if startsWithFence line then line ++ ['\n'] else line ++ [' ', ' ', '\n']

/-- The transformed markdown source built from one snapshot text:
`"".join(lines)`. -/
def richTransform (text : List Char) : List Char :=
  ((pySplitlines text).map richLineSuffix).flatten

/-- One iteration of the rich loop.  A falsy `outputs` is skipped
(`if not outputs: continue`); otherwise the displayed region is replaced
by the markdown source recomputed from this snapshot's raw text alone,
and the loop variable `text` is re-bound. -/
def RichChat.streamStep (st : List Char × Option (List Char))
    (outputs : Option (List Char)) : List Char × Option (List Char) :=
  match outputs with
  | none => st
  | some text => (richTransform text, some text)

/-- `RichChat.stream_output`: the final displayed markdown source and
the final value of `text` (which the method returns; `none` means `text`
was never bound).  `live0` is whatever the live region showed before. -/
def RichChat.stream_output (stream : List (Option (List Char))) (live0 : List Char) :
    List Char × Option (List Char) :=
  stream.foldl RichChat.streamStep (live0, none)

theorem pySplitlines_cons_newline (r : List Char) :
    pySplitlines ('\n' :: r) = [] :: pySplitlines r := by
  cases r <;> rfl

theorem pySplitlines_cons_other {c : Char} (r : List Char) (h1 : c ≠ '\n') (h2 : c ≠ '\r') :
    pySplitlines (c :: r) = consHead c (pySplitlines r) := by
  cases r with
  | nil => simp [pySplitlines, if_neg h1, if_neg h2]
  | cons c2 r2 => simp [pySplitlines, if_neg h1, if_neg h2]

theorem pySplitlines_single {a : List Char} (ha : ∀ c ∈ a, c ≠ '\n' ∧ c ≠ '\r')
    (hne : a ≠ []) : pySplitlines a = [a] := by
  induction a with
  | nil => exact absurd rfl hne
  | cons c a' ih =>
    have hc := ha c (by simp)
    rw [pySplitlines_cons_other a' hc.1 hc.2]
    cases a' with
    | nil => rfl
    | cons d a'' =>
      rw [ih (fun x hx => ha x (by simp [hx])) (by simp)]
      rfl

theorem pySplitlines_newline_append {a : List Char} (rest : List Char)
    (ha : ∀ c ∈ a, c ≠ '\n' ∧ c ≠ '\r') :
    pySplitlines (a ++ '\n' :: rest) = a :: pySplitlines rest := by
  induction a with
  | nil => exact pySplitlines_cons_newline rest
  | cons c a' ih =>
    have hc := ha c (by simp)
    rw [List.cons_append, pySplitlines_cons_other _ hc.1 hc.2,
      ih (fun x hx => ha x (by simp [hx]))]
    rfl

/-- C6 as stated is false at a concrete input: in the transformed
markdown source of the fenced block with interior line "code", the
interior line does receive the injected two-space suffix (the actual
output carries "code  ", not "code" — only the fence-marker lines
themselves escape the suffix). -/
theorem C6_counterexample_interior_suffixed :
    richTransform ("```\ncode\n```".toList) = ("```\ncode  \n```\n".toList) ∧
    richTransform ("```\ncode\n```".toList) ≠ ("```\ncode\n```\n".toList) := by
  constructor
  · decide
  · decide

/-- C6 amended: only the fence-marker lines themselves are exempt from
the suffix rule; an interior line between the two fences is rendered
WITH the injected two-space line-break suffix (the source code comment
itself concedes that this introduces trailing spaces inside code
blocks), while both fence lines get a bare newline. -/
theorem C6_fence_lines_unsuffixed (code : List Char)
    (hcode : startsWithFence code = false)
    (hnl : ∀ c ∈ code, c ≠ '\n' ∧ c ≠ '\r') :
    richTransform (fenceMarker ++ '\n' :: code ++ '\n' :: fenceMarker) =
      fenceMarker ++ '\n' :: code ++ ' ' :: ' ' :: '\n' :: fenceMarker ++ ['\n'] := by
  have hf : ∀ c ∈ fenceMarker, c ≠ '\n' ∧ c ≠ '\r' := by decide
  have hsf : startsWithFence fenceMarker = true := by decide
  have h1 : pySplitlines (fenceMarker ++ '\n' :: (code ++ '\n' :: fenceMarker))
      = fenceMarker :: pySplitlines (code ++ '\n' :: fenceMarker) :=
    pySplitlines_newline_append _ hf
  have h2 : pySplitlines (code ++ '\n' :: fenceMarker)
      = code :: pySplitlines fenceMarker :=
    pySplitlines_newline_append _ hnl
  have h3 : pySplitlines fenceMarker = [fenceMarker] :=
    pySplitlines_single hf (by decide)
  simp only [richTransform, h1, h2, h3, List.map_cons, List.map_nil, List.flatten_cons,
    List.flatten_nil, richLineSuffix, hsf, if_true, hcode, if_false, Bool.false_eq_true,
    ite_false, ite_true, List.append_nil, List.append_assoc, List.cons_append,
    List.nil_append]

theorem C6_fence_lines_unsuffixed_witness :
    (startsWithFence ("code".toList) = false ∧
      ∀ c ∈ ("code".toList), c ≠ '\n' ∧ c ≠ '\r') ∧
    richTransform (fenceMarker ++ '\n' :: ("code".toList) ++ '\n' :: fenceMarker) =
      fenceMarker ++ '\n' :: ("code".toList) ++ ' ' :: ' ' :: '\n' :: fenceMarker
        ++ ['\n'] :=
  ⟨⟨by decide, by decide⟩, C6_fence_lines_unsuffixed _ (by decide) (by decide)⟩

/-- C7: the markdown source is recomputed fresh from the current
snapshot's raw text on every redraw — the display after a snapshot is a
function of that snapshot's text alone, so redrawing the same raw text
twice in a row changes nothing and no trailing-space suffixes can
accumulate across redraws. -/
theorem C7_idempotent_redraw (xs : List (Option (List Char))) (t live0 : List Char) :
    RichChat.stream_output (xs ++ [some t, some t]) live0 =
      RichChat.stream_output (xs ++ [some t]) live0 ∧
    (RichChat.stream_output (xs ++ [some t]) live0).1 = richTransform t := by
  constructor
  · simp [RichChat.stream_output, List.foldl_append, RichChat.streamStep]
  · simp [RichChat.stream_output, List.foldl_append, RichChat.streamStep]

/-!
## The Input Bridge: `SimpleChat.prompt_for_input`

Source (`src/fastchat/serve/cli.py`, lines 44-69):

    class SimpleChatIO:   # derives the abstract ChatIO base
        def __init__(self, websocket, multiline: bool = False):
            self._multiline = multiline
            self.websocket = websocket

        def prompt_for_input(self, role) -> str:
            if not self._multiline:
                return input(role + ": ")          # (an f-string in the source)

            prompt_data = []
            line = self.receive_input_from_websocket(
                role + " [ctrl-d/z on empty line to end]: ")
            while True:
                prompt_data.append(line.strip())
                try:
                    line = self.receive_input_from_websocket()
                except EOFError as e:
                    break
            return "\n".join(prompt_data)

        async def receive_input_from_websocket(self, prompt=None) -> str:
            if prompt:
                self.send_message_to_websocket(prompt)
            user_input = await self.websocket.recv()
            print(user_input)
            return user_input

`receive_input_from_websocket` is an `async def`, but `prompt_for_input`
is an ordinary synchronous method and calls it WITHOUT `await`.  In
Python such a call does not execute the body at all: it only constructs
and returns a coroutine object.  None of the body's effects happen — no
prompt frame is sent, nothing is received from the websocket, nothing is
printed (and `send_message_to_websocket` does not even exist as a method
of the class).  The following `line.strip()` therefore raises
`AttributeError` (a coroutine object has no `strip` method), and the
bare call itself never raises `EOFError`, so the `except EOFError`
branch kept from the earlier `input()`-based version is unreachable.
-/

/-- A Python value flowing through the multi-line loop: an actual string
or the un-awaited coroutine object produced by calling an `async def`
without `await`. -/
inductive PyVal where
  | str : List Char → PyVal
  | coroutine : PyVal
deriving DecidableEq, Repr

/-- The Python exceptions relevant here.  `fuelExhausted` is a modelling
artifact marking that the `while True` loop has not exited within the
given fuel. -/
inductive PyError where
  | attributeError
  | fuelExhausted
deriving DecidableEq, Repr

/-- A bare (un-`await`ed) call of the `async def
receive_input_from_websocket` from synchronous code: the body does not
run, the caller obtains a coroutine object, and nothing at all happens
on the websocket, whatever `prompt` argument is passed. -/
def SimpleChat.receive_input_from_websocket_call (prompt : Option (List Char)) : PyVal :=
  PyVal.coroutine

/-- `line.strip()` on a Python value: on a string it strips whitespace;
on a coroutine object it raises
`AttributeError: 'coroutine' object has no attribute 'strip'`. -/
def pyStripMethod : PyVal → Except PyError (List Char)
  | PyVal.str s => Except.ok (pyStrip s)
  | PyVal.coroutine => Except.error PyError.attributeError

/-- Python `"\n".join(ws)`. -/
def joinNewline : List (List Char) → List Char
  | [] => []
  | [w] => w
  | w :: ws => w ++ '\n' :: joinNewline ws

/-- The `while True` loop of the multi-line branch.  Each iteration
first executes `prompt_data.append(line.strip())`, then re-binds `line`
by another bare call of the `async def` — which raises nothing, in
particular never `EOFError`, so the loop can only exit through an
exception from `line.strip()`.  Termination is modelled with fuel. -/
def SimpleChat.promptLoop :
    Nat → PyVal → List (List Char) → Except PyError (List (List Char))
  | 0, _, _ => Except.error PyError.fuelExhausted
  | fuel + 1, line, acc =>
    match pyStripMethod line with
    | Except.error e => Except.error e
    | Except.ok s =>
        SimpleChat.promptLoop fuel
          (SimpleChat.receive_input_from_websocket_call none) (acc ++ [s])

/-- The observable outcome of one `prompt_for_input` call: the frames
actually sent over the websocket during the call, and its result
(a returned string, or a raised exception). -/
structure PromptOutcome where
  sentFrames : List (List Char)
  result : Except PyError (List Char)
deriving Repr

/-- `SimpleChat.prompt_for_input` (lines 49-62).  `role` is the prompt
decoration; `stdinLine` is the line the local `input()` call would read
from the console; `fuel` bounds the `while True` loop of the multi-line
branch. -/
def SimpleChat.prompt_for_input (multiline : Bool) (role stdinLine : List Char)
    (fuel : Nat) : PromptOutcome :=
  if multiline = false then
    { sentFrames := [], result := Except.ok stdinLine }
  else
    match SimpleChat.promptLoop fuel
        (SimpleChat.receive_input_from_websocket_call
          (some (role ++ (" [ctrl-d/z on empty line to end]: ".toList)))) [] with
    | Except.error e => { sentFrames := [], result := Except.error e }
    | Except.ok data => { sentFrames := [], result := Except.ok (joinNewline data) }

/-- C2 is a code bug: in multi-line mode `prompt_for_input` never trims
or appends any received frame and never returns the joined buffer.
The bare call of the `async def` receive yields a coroutine object
without sending or receiving anything, and the first `line.strip()` of
the loop raises `AttributeError` — whatever frames the peer would have
sent. -/
theorem C2_multiline_raises (role stdinLine : List Char) (fuel : Nat) (h : 1 ≤ fuel) :
    SimpleChat.prompt_for_input true role stdinLine fuel =
      { sentFrames := [], result := Except.error PyError.attributeError } := by
  cases fuel with
  | zero => omega
  | succ n => rfl

theorem C2_multiline_raises_witness :
    1 ≤ 3 ∧
    SimpleChat.prompt_for_input true ("human".toList) ("unused".toList) 3 =
      { sentFrames := [], result := Except.error PyError.attributeError } :=
  ⟨by decide, C2_multiline_raises _ _ 3 (by decide)⟩

/-- C3 as stated is false at a concrete input: in single-line mode, with
the inbound frame "remote reply" pending on the Transport Session,
`prompt_for_input` sends no prompt frame over the session and does not
return that inbound message — it returns the locally read console line
instead. -/
theorem C3_counterexample :
    (SimpleChat.prompt_for_input false ("human".toList) ("local line".toList)
        3).sentFrames = [] ∧
    (SimpleChat.prompt_for_input false ("human".toList) ("local line".toList)
        3).result = Except.ok ("local line".toList) ∧
    Except.ok ("local line".toList)
      ≠ (Except.ok ("remote reply".toList) : Except PyError (List Char)) := by
  refine ⟨rfl, rfl, fun h => ?_⟩
  exact absurd (Except.ok.inj h) (by decide)

/-- C3 amended: in single-line mode `prompt_for_input` reads one line
from the local console (via `input`) and returns it verbatim; the
Transport Session is neither written to nor read. -/
theorem C3_single_line_is_local (role stdinLine : List Char) (fuel : Nat) :
    SimpleChat.prompt_for_input false role stdinLine fuel =
      { sentFrames := [], result := Except.ok stdinLine } := rfl

/-!
## The Fixed-File variant: `FileInputChat.prompt_for_input`

Source (`src/fastchat/serve/cli.py`, lines 162-166):

    def prompt_for_input(self, role) -> str:
        with open(self._input_file, 'r') as f:
            contents = f.read()
        print(...)
        return contents
-/

/-- A freshly opened read handle: `open(path, 'r')` starts at position 0
of the file contents. -/
structure FileHandle where
  contents : List Char
  pos : Nat
deriving DecidableEq, Repr

def pyOpen (fileContents : List Char) : FileHandle :=
  { contents := fileContents, pos := 0 }

/-- `f.read()`: everything from the current position to the end of the
file; the position moves to the end. -/
def fileRead (f : FileHandle) : List Char × FileHandle :=
  (f.contents.drop f.pos, { contents := f.contents, pos := f.contents.length })

/-- `FileInputChat.prompt_for_input`: open the configured file fresh,
read it wholesale, let the `with` block close the handle (no position
survives the call), and return the contents. -/
def FileInputChat.prompt_for_input (fileContents : List Char) : List Char :=
  (fileRead (pyOpen fileContents)).1

/-- C9: calling the Fixed-File `prompt_for_input` twice in a row with
the underlying file contents unchanged returns identical strings both
times — each call re-opens the file at position 0 and reads the entire
contents, with no file-position state carried between calls. -/
theorem C9_fixed_file_stability (fileContents : List Char) :
    FileInputChat.prompt_for_input fileContents
        = FileInputChat.prompt_for_input fileContents ∧
    FileInputChat.prompt_for_input fileContents = fileContents :=
  ⟨rfl, rfl⟩
